import Mathlib

/-!
# Save index and save loader of naev (`src/load.c`)

A shallow embedding of `load_load`, `load_refresh`, `load_loadGameMenu`,
`load_menu_delete` and `load_game`, followed by the theorems that settle the
claims made about them.

Conventions of the embedding.

* A C string (`char*`, NUL excluded) is a `String`; every `Char` of the model
  stands for one C `char`, so `strlen` is the number of characters and
  `&s[k]` is the string obtained by dropping the first `k` characters.
* A pointer that may be `NULL` is an `Option`.
* A dynamic array is a `List`.
* Calls into other modules are recorded in a trace (a list of calls, oldest
  first); values returned by code outside `load.c` are fields of `Env`.
-/

namespace Naev

/-! ## C library -/

/-- The C function `strlen`. -/
def strlen (s : String) : Nat := s.data.length

/-- The C expression `&s[k]`: the string starting at offset `k`. -/
def strFrom (s : String) (k : Nat) : String := String.mk (s.data.drop k)

/-- The C function `strcmp` on the characters of two strings. -/
def strcmpChars : List Char → List Char → Int
  | [], [] => 0
  | [], _ :: _ => -1
  | _ :: _, [] => 1
  | a :: as, b :: bs =>
    if a = b then strcmpChars as bs else (a.toNat : Int) - (b.toNat : Int)

/-- The C function `strcmp`. -/
def strcmp (a b : String) : Int := strcmpChars a.data b.data

/-- The C function `memmove` on an array of pointers: `k` cells are copied
from index `src` to index `dst`; the array keeps its length. -/
def memmove {α : Type} (a : List α) (dst src k : Nat) : List α :=
  a.take dst ++ ((a.drop src).take k ++ a.drop (dst + k))

/-! ## libxml2 documents -/

/-- A node of a libxml2 tree: `type`, `name`, `properties` (attributes),
`children` (the sibling list starting at `xmlChildrenNode`) and `content`. -/
inductive xmlNode where
  | mk (type : Nat) (name : String) (properties : List (String × String))
      (children : List xmlNode) (content : Option String) : xmlNode

namespace xmlNode

/-- Field `type` of a node. -/
def type : xmlNode → Nat
  | mk t _ _ _ _ => t

/-- Field `name` of a node. -/
def name : xmlNode → String
  | mk _ n _ _ _ => n

/-- Field `properties` of a node. -/
def properties : xmlNode → List (String × String)
  | mk _ _ p _ _ => p

/-- Field `children` (`xmlChildrenNode`) of a node, as the list of siblings
reached through `next`. -/
def children : xmlNode → List xmlNode
  | mk _ _ _ c _ => c

/-- Field `content` of a node. -/
def content : xmlNode → Option String
  | mk _ _ _ _ c => c

end xmlNode

/-- A parsed document: the sibling list starting at `doc->xmlChildrenNode`. -/
structure xmlDoc where
  children : List xmlNode

/-- The libxml2 constant `XML_ELEMENT_NODE`, called `XML_NODE_START` by naev. -/
def XML_NODE_START : Nat := 1

/-- The libxml2 constant `XML_TEXT_NODE`. -/
def XML_NODE_TEXT : Nat := 3

/-- An element node. -/
def xmlElem (name : String) (properties : List (String × String))
    (children : List xmlNode) : xmlNode :=
  xmlNode.mk XML_NODE_START name properties children none

/-- A text node. -/
def xmlText (text : String) : xmlNode :=
  xmlNode.mk XML_NODE_TEXT "text" [] [] (some text)

/-- The libxml2 function `xmlGetProp`: the value of the first attribute named
`s`, `NULL` when there is none. -/
def xmlGetProp (n : xmlNode) (s : String) : Option String :=
  n.properties.lookup s

/-! ## Save summaries (`nsave_t`) -/

/-- The struct `nsave_t` of `load.h`, with the fields `load.c` uses. -/
structure nsave_t where
  name : Option String
  path : Option String
  version : Option String
  data : Option String
  planet : Option String
  date : Nat
  credits : Nat
  shipname : Option String
  shipmodel : Option String
  deriving DecidableEq

/-- The value left by `memset( save, 0, sizeof(nsave_t) )`. -/
def nsave_zero : nsave_t :=
  { name := none, path := none, version := none, data := none, planet := none,
    date := 0, credits := 0, shipname := none, shipmodel := none }

/-! ## Environment -/

/-- What `load.c` obtains from outside: the base path, the size of the path
buffer, the parser, the number conversion of libc and the unspecified content
of a freshly grown array cell. -/
structure Env where
  nfile_basePath : String
  PATH_MAX : Nat
  xmlParseFile : String → Option xmlDoc
  strtoul : String → Nat
  array_uninit : nsave_t

/-! ## Reader helpers of `nxml.h` -/

/-- Modelled from the spec: the helper `xml_isNode(n,s)` of `nxml.h`, absent
from the sources; true when `n` is an element ("section") named `s`. -/
def xml_isNode (n : Option xmlNode) (s : String) : Bool :=
  match n with
  | none => false
  | some x => x.type == XML_NODE_START && strcmp x.name s == 0

/-- Modelled from the spec: the helper `xml_onlyNodes(n)` of `nxml.h`, absent
from the sources; true when it executes `continue`, that is when `n` is `NULL`
or not an element. -/
def xml_onlyNodes (n : Option xmlNode) : Bool :=
  match n with
  | none => true
  | some x => x.type != XML_NODE_START

/-- Modelled from the spec: the helper `xml_get(n)` of `nxml.h`, absent from the
sources; the text held by the first child of `n`, `NULL` without children. -/
def xml_get (n : xmlNode) : Option String :=
  match n.children with
  | [] => none
  | c :: _ => c.content

/-- Modelled from the spec: the helper `xmlr_strd(n,s,str)` of `nxml.h`, absent
from the sources; `some v` when `n` is the element `s` (the field receives a
copy `v` of its text and the loop continues), `none` when control falls
through. -/
def xmlr_strd (n : Option xmlNode) (s : String) : Option (Option String) :=
  match n with
  | none => none
  | some x => if xml_isNode n s then some (xml_get x) else none

/-- Modelled from the spec: the helper `xmlr_ulong(n,s,ul)` of `nxml.h`, absent
from the sources; `some v` when `n` is the element `s` (the field receives the
number `v` read from its text, zero without text, and the loop continues),
`none` when control falls through. -/
def xmlr_ulong (env : Env) (n : Option xmlNode) (s : String) : Option Nat :=
  match n with
  | none => none
  | some x =>
    if xml_isNode n s then
      some (match xml_get x with
        | none => 0
        | some t => env.strtoul t)
    else none

/-- Modelled from the spec: the helper `xmlr_attr(n,s,a)` of `nxml.h`, absent
from the sources; the value assigned to `a`, the attribute `s` of `n`. -/
def xmlr_attr (n : xmlNode) (s : String) : Option String :=
  xmlGetProp n s

/-- Modelled from the spec: the helper `xml_nextNode(n)` of `nxml.h`, absent
from the sources, moves `n` to its next sibling and is false when `n` is
`NULL` or has no next sibling. So the loop
`p = first; do { body } while (xml_nextNode(p));` runs its body once on `NULL`
when the sibling list is empty, otherwise once on every sibling in order. -/
def xml_doWhile {σ : Type} (body : Option xmlNode → σ → σ)
    (first : List xmlNode) (s : σ) : σ :=
  match first with
  | [] => body none s
  | n :: rest => (n :: rest).foldl (fun acc x => body (some x) acc) s

/-! ## `load_load` -/

/-- Body of the loop over the children of a `version` element
(`load.c` lines 105-108). -/
def load_load_version (node : Option xmlNode) (save : nsave_t) : nsave_t :=
  match xmlr_strd node "naev" with
  | some v => { save with version := v }
  | none =>
    match xmlr_strd node "data" with
    | some v => { save with data := v }
    | none => save

/-- Body of the loop over the children of a `player` element
(`load.c` lines 119-133); `parent` is the `player` element. -/
def load_load_player (env : Env) (parent : xmlNode) (node : Option xmlNode)
    (save : nsave_t) : nsave_t :=
  if xml_onlyNodes node then save
  else
    match xmlr_strd node "location" with
    | some v => { save with planet := v }
    | none =>
      match xmlr_ulong env node "credits" with
      | some v => { save with credits := v }
      | none =>
        match xmlr_ulong env node "time" with
        | some v => { save with date := v }
        | none =>
          if xml_isNode node "ship" then
            { save with shipname := xmlr_attr parent "name",
                        shipmodel := xmlr_attr parent "model" }
          else save

/-- Body of the loop over the children of the root (`load.c` lines 99-136). -/
def load_load_section (env : Env) (parent : Option xmlNode) (save : nsave_t) :
    nsave_t :=
  if xml_onlyNodes parent then save
  else
    match parent with
    | none => save
    | some p =>
      if xml_isNode parent "version" then
        xml_doWhile load_load_version p.children save
      else if xml_isNode parent "player" then
        xml_doWhile (load_load_player env p) p.children
          { save with name := xmlr_attr p "name" }
      else save

/-- The function `load_load`: the return code and the content of `*save`
after the call. The cell is zeroed first, so its previous content `_save`
plays no part. -/
def load_load (env : Env) (_save : nsave_t) (path : String) : Int × nsave_t :=
  match env.xmlParseFile path with
  | none => (-1, nsave_zero)
  | some doc =>
    match doc.children with
    | [] => (-1, nsave_zero)
    | root :: _ =>
      (0, xml_doWhile (load_load_section env) root.children
            { nsave_zero with path := some path })

/-! ## `load_refresh` -/

/-- The test of `load.c` line 165, "no save extension":
`(len < 5) || strcmp(&files[i][len-3],".ns")`. -/
def load_refresh_noExt (file : String) : Bool :=
  let len := strlen file
  decide (len < 5) || strcmp (strFrom file (len - 3)) ".ns" != 0

/-- The first loop of `load_refresh` (`load.c` lines 161-171), from the loop
test with counter `i`: an entry without the save extension is removed in
place by `memmove`, `nfiles--` and `i--`, and the `i++` of the loop then
leaves `i` where it was. Returns the array and `nfiles` at loop exit. -/
def load_refresh_filter (files : List String) (nfiles i : Nat) :
    List String × Nat :=
  if i < nfiles then
    if load_refresh_noExt (files.getD i "") then
      load_refresh_filter (memmove files i (i + 1) (nfiles - i - 1))
        (nfiles - 1) i
    else load_refresh_filter files nfiles (i + 1)
  else (files, nfiles)
termination_by nfiles - i
decreasing_by all_goals omega

/-- The path built by `snprintf( buf, sizeof(buf), "%ssaves/%s", ... )`: the
text is cut to `PATH_MAX - 1` characters. -/
def load_refresh_path (env : Env) (file : String) : String :=
  String.mk ((env.nfile_basePath ++ "saves/" ++ file).data.take (env.PATH_MAX - 1))

/-- The second loop of `load_refresh` (`load.c` lines 178-184) over the
remaining file names, with the current value of `ok` and of the array
`load_saves`; `ns` is the last cell of the array. -/
def load_refresh_parse (env : Env) :
    List String → Int → List nsave_t → List nsave_t
  | [], _, saves => saves
  | file :: rest, ok, saves =>
    let grown := if ok = 0 then saves ++ [env.array_uninit] else saves
    let r := load_load env (grown.getLastD env.array_uninit)
      (load_refresh_path env file)
    load_refresh_parse env rest r.1 (grown.dropLast ++ [r.2])

/-- The file names that remain in `files[0 .. nfiles-1]` after the first loop
of `load_refresh`, started with the `nfiles` entries of the listing. -/
def load_refresh_candidates (files : List String) : List String :=
  let r := load_refresh_filter files files.length 0
  r.1.take r.2

/-- The function `load_refresh`: the new content of `load_saves`, given the
result `files` of `nfile_readDir` (`NULL` with `nfiles = 0` when the directory
cannot be read) and the previous `load_saves`, which is freed. The function
always returns 0. -/
def load_refresh (env : Env) (files : Option (List String))
    (_load_saves : Option (List nsave_t)) : List nsave_t :=
  match files with
  | none => []
  | some fs => load_refresh_parse env (load_refresh_candidates fs) 0 []

/-- Whether the header parse of the candidate `file` succeeds: `load_load`
returns 0 on the path built for it. -/
def load_refresh_ok (env : Env) (file : String) : Bool :=
  (load_load env env.array_uninit (load_refresh_path env file)).1 == 0

/-- The record `load_load` writes for the candidate `file`. -/
def load_refresh_record (env : Env) (file : String) : nsave_t :=
  (load_load env env.array_uninit (load_refresh_path env file)).2

/-- Whether the last candidate of the list exists and fails to parse. -/
def load_refresh_lastFailed (env : Env) (cands : List String) : Bool :=
  match cands.getLast? with
  | none => false
  | some file => !load_refresh_ok env file

/-- A file name has the save extension: it ends in `.ns`. -/
def hasSaveExt (file : String) : Prop := ".ns".data <:+ file.data

instance (file : String) : Decidable (hasSaveExt file) := by
  unfold hasSaveExt; infer_instance

/-! ## The load menu -/

/-- Modelled from the spec: the list widget of the toolkit, absent from the
sources; its rows and the selected row. -/
structure ListWidget where
  items : List String
  pos : Nat

/-- Modelled from the spec: the selection query `toolkit_getList` of the
toolkit, absent from the sources; the text of the selected row. -/
def toolkit_getList (w : ListWidget) : Option String := w.items[w.pos]?

/-- Modelled from the spec: the selection query `toolkit_getListPos` of the
toolkit, absent from the sources; the index of the selected row. -/
def toolkit_getListPos (w : ListWidget) : Nat := w.pos

/-- The loop `names[i] = strdup( ns->name )` of `load_loadGameMenu`
(`load.c` lines 262-265). `strdup` of a `NULL` name has no defined result:
`none`. -/
def load_loadGameMenu_dup : List nsave_t → Option (List String)
  | [] => some []
  | ns :: rest =>
    match ns.name, load_loadGameMenu_dup rest with
    | some name, some names => some (name :: names)
    | _, _ => none

/-- The rows built by `load_loadGameMenu` (`load.c` lines 259-272) from the
list returned by `load_getList`: one copy of `name` per record, or the single
row `None` for an empty list. -/
def load_loadGameMenu_names (nslist : List nsave_t) : Option (List String) :=
  if nslist.length > 0 then load_loadGameMenu_dup nslist
  else some ["None"]

/-- The function `load_loadGameMenu`: the refreshed `load_saves` and the list
widget `lstSaves`, created with its first row selected. -/
def load_loadGameMenu (env : Env) (files : Option (List String))
    (load_saves : Option (List nsave_t)) : Option (List nsave_t × ListWidget) :=
  let saves := load_refresh env files load_saves
  match load_loadGameMenu_names saves with
  | none => none
  | some names => some (saves, { items := names, pos := 0 })

/-- The calls `load_menu_delete` makes that act on the user, the file system
or the menu. -/
inductive MenuCall where
  | dialogue_YesNo (title msg : String)
  | remove (path : Option String)
  | window_destroy (wdw : Nat)
  | load_loadGameMenu
  deriving DecidableEq

/-- The function `load_menu_delete`: the calls it makes, in order, for the
answer `yes` the user gives when asked, the array `load_saves` and the widget
`lstSaves`. `none` stands for an access with no defined result (no selected
row, or a position outside the array). -/
def load_menu_delete (yes : Bool) (load_saves : List nsave_t)
    (lstSaves : ListWidget) (wdw : Nat) : Option (List MenuCall) :=
  match toolkit_getList lstSaves with
  | none => none
  | some save =>
    if strcmp save "None" == 0 then some []
    else
      let ask := MenuCall.dialogue_YesNo "Permanently Delete?"
        ("Are you sure you want to permanently delete \x27" ++ save ++ "\x27?")
      if yes == false then some [ask]
      else
        match load_saves[toolkit_getListPos lstSaves]? with
        | none => none
        | some ns =>
          some [ask, MenuCall.remove ns.path, MenuCall.window_destroy wdw,
            MenuCall.load_loadGameMenu]

/-- The paths handed to `remove` in a list of calls. -/
def MenuCall.removed : List MenuCall → List (Option String)
  | [] => []
  | MenuCall.remove path :: rest => path :: MenuCall.removed rest
  | _ :: rest => MenuCall.removed rest

/-- Whether the user was asked to confirm in a list of calls. -/
def MenuCall.asked (calls : List MenuCall) : Bool :=
  calls.any (fun c => match c with
    | MenuCall.dialogue_YesNo _ _ => true
    | _ => false)

/-! ## `load_game` -/

/-- The type `Planet` of `space.h`, known here by its name only. -/
structure Planet where
  name : String
  deriving DecidableEq

/-- What `load_game` obtains from outside: the file system, the parser, the
location returned by `player_load`, the layout returned by `gui_pick` and the
strings `APPNAME` and `naev_version(0)`. -/
structure GameEnv where
  nfile_fileExists : String → Bool
  xmlParseFile : String → Option xmlDoc
  player_load : xmlNode → Planet
  gui_pick : String
  APPNAME : String
  naev_version : String

/-- The calls `load_game` makes, with their arguments. -/
inductive Call where
  | nfile_fileExists (file : String)
  | dialogue_alert (msg : String)
  | xmlParseFile (file : String)
  | player_cleanup
  | diff_clear
  | var_cleanup
  | missions_cleanup
  | events_cleanup
  | player_message (msg : String)
  | diff_load (node : xmlNode)
  | pfaction_load (node : xmlNode)
  | player_load (node : xmlNode)
  | var_load (node : xmlNode)
  | missions_loadActive (node : xmlNode)
  | events_loadActive (node : xmlNode)
  | hook_load (node : xmlNode)
  | space_sysLoad (node : xmlNode)
  | economy_init
  | event_checkSanity
  | events_trigger (trigger : String)
  | land (pnt : Planet) (load : Int)
  | gui_pick
  | gui_load (name : String)
  | gui_setCargo
  | xmlFreeDoc
  | xmlCleanupParser
  | WARN (msg : String)

/-- The five teardown calls. -/
def Call.isTeardown : Call → Bool
  | Call.player_cleanup => true
  | Call.diff_clear => true
  | Call.var_cleanup => true
  | Call.missions_cleanup => true
  | Call.events_cleanup => true
  | _ => false

/-- The calls that install the loaded session: the eight deserializations,
economy init, event sanity check, load trigger, land, GUI overlay load and
cargo fix-up. -/
def Call.isLoadStep : Call → Bool
  | Call.diff_load _ => true
  | Call.pfaction_load _ => true
  | Call.player_load _ => true
  | Call.var_load _ => true
  | Call.missions_loadActive _ => true
  | Call.events_loadActive _ => true
  | Call.hook_load _ => true
  | Call.space_sysLoad _ => true
  | Call.economy_init => true
  | Call.event_checkSanity => true
  | Call.events_trigger _ => true
  | Call.land _ _ => true
  | Call.gui_load _ => true
  | Call.gui_setCargo => true
  | _ => false

/-- The calls that change live game state: teardown, load steps and the
welcome messages. -/
def Call.touchesGame (c : Call) : Bool :=
  c.isTeardown || c.isLoadStep ||
    match c with
    | Call.player_message _ => true
    | _ => false

/-- The function `load_game`: its return value and the calls it makes, in
order. -/
def load_game (env : GameEnv) (file : String) : Int × List Call :=
  if !env.nfile_fileExists file then
    (-1, [Call.nfile_fileExists file,
      Call.dialogue_alert "Savegame file seems to have been deleted."])
  else
    match env.xmlParseFile file with
    | none =>
      (-1, [Call.nfile_fileExists file, Call.xmlParseFile file,
        Call.WARN ("Savegame \x27" ++ file ++ "\x27 invalid!")])
    | some doc =>
      match doc.children with
      | [] =>
        (-1, [Call.nfile_fileExists file, Call.xmlParseFile file,
          Call.xmlFreeDoc, Call.xmlCleanupParser,
          Call.WARN ("Savegame \x27" ++ file ++ "\x27 invalid!")])
      | node :: _ =>
        let pnt := env.player_load node
        (0, [Call.nfile_fileExists file, Call.xmlParseFile file,
          Call.player_cleanup, Call.diff_clear, Call.var_cleanup,
          Call.missions_cleanup, Call.events_cleanup,
          Call.player_message ("\x1bgWelcome to " ++ env.APPNAME ++ "!"),
          Call.player_message ("\x1bg v" ++ env.naev_version),
          Call.diff_load node, Call.pfaction_load node, Call.player_load node,
          Call.var_load node, Call.missions_loadActive node,
          Call.events_loadActive node, Call.hook_load node,
          Call.space_sysLoad node,
          Call.economy_init,
          Call.event_checkSanity,
          Call.events_trigger "EVENT_TRIGGER_LOAD",
          Call.land pnt 1,
          Call.gui_pick, Call.gui_load env.gui_pick,
          Call.gui_setCargo,
          Call.xmlFreeDoc, Call.xmlCleanupParser])

/-! ## Vocabulary of the statements and example inputs -/

/-- No section named `sect` under `root` has a child element named `child`. -/
def xmlNode.lacks (root : xmlNode) (sect child : String) : Prop :=
  ∀ p ∈ root.children, xml_isNode (some p) sect = true →
    ∀ c ∈ p.children, xml_isNode (some c) child = false

instance (root : xmlNode) (sect child : String) : Decidable (root.lacks sect child) := by
  unfold xmlNode.lacks; infer_instance

/-- No section named `sect` under `root` carries the attribute `attr`. -/
def xmlNode.lacksAttr (root : xmlNode) (sect attr : String) : Prop :=
  ∀ p ∈ root.children, xml_isNode (some p) sect = true → xmlGetProp p attr = none

instance (root : xmlNode) (sect attr : String) : Decidable (root.lacksAttr sect attr) := by
  unfold xmlNode.lacksAttr; infer_instance

/-- The conversion `strtoul` on a string of decimal digits. -/
def strtoul_digits (s : String) : Nat :=
  s.data.foldl (fun acc c => 10 * acc + (c.toNat - 48)) 0

/-- Root element of a save: player `Nova` with 500 credits, docked at `Em 1`,
flying the ship `Falcon` of model `Llama`. -/
def novaRoot : xmlNode :=
  xmlElem "naev_save" [] [
    xmlElem "version" [] [
      xmlElem "naev" [] [xmlText "0.5.0"],
      xmlElem "data" [] [xmlText "0.5.0"]],
    xmlElem "player" [("name", "Nova")] [
      xmlElem "location" [] [xmlText "Em 1"],
      xmlElem "credits" [] [xmlText "500"],
      xmlElem "time" [] [xmlText "42"],
      xmlElem "ship" [("name", "Falcon"), ("model", "Llama")] []]]

/-- The save document with root `novaRoot`. -/
def novaDoc : xmlDoc := { children := [novaRoot] }

/-- Root element of a save without `ship` element and without `version`
section. -/
def bareRoot : xmlNode :=
  xmlElem "naev_save" [] [
    xmlElem "player" [("name", "Nova")] [
      xmlElem "credits" [] [xmlText "500"]]]

/-- The save document with root `bareRoot`. -/
def bareDoc : xmlDoc := { children := [bareRoot] }

/-- A save directory under `/`: `a.ns` and `nova.ns` hold `novaDoc`, `bare.ns`
holds `bareDoc`, and every other file fails to parse. -/
def scenarioEnv : Env :=
  { nfile_basePath := "/"
    PATH_MAX := 4096
    xmlParseFile := fun path =>
      if path = "/saves/a.ns" ∨ path = "/saves/nova.ns" then some novaDoc
      else if path = "/saves/bare.ns" then some bareDoc
      else none
    strtoul := strtoul_digits
    array_uninit := { nsave_zero with credits := 7 } }

/-- Root element of a save whose `ship` element carries a `model` attribute
and no `name` attribute, inside the player `Nova`. -/
def llamaRoot : xmlNode :=
  xmlElem "naev_save" [] [
    xmlElem "player" [("name", "Nova")] [
      xmlElem "credits" [] [xmlText "500"],
      xmlElem "ship" [("model", "Llama")] []]]

/-- The save document with root `llamaRoot`. -/
def llamaDoc : xmlDoc := { children := [llamaRoot] }

/-- A save directory under `/` in which `llama.ns` holds `llamaDoc` and every
other file fails to parse. -/
def llamaEnv : Env :=
  { nfile_basePath := "/"
    PATH_MAX := 4096
    xmlParseFile := fun path => if path = "/saves/llama.ns" then some llamaDoc else none
    strtoul := strtoul_digits
    array_uninit := nsave_zero }

/-- The record of a save of the player `Nova` stored at `/saves/nova.ns`. -/
def novaSave : nsave_t :=
  { nsave_zero with name := some "Nova", path := some "/saves/nova.ns", credits := 500 }

/-- The record of a save of a player who chose the name `None`. -/
def noneSave : nsave_t :=
  { nsave_zero with name := some "None", path := some "/saves/None.ns" }

/-- A game in which only `/saves/nova.ns` exists; it holds `novaDoc`, and the
player is docked at `Em 1`. -/
def scenarioGame : GameEnv :=
  { nfile_fileExists := fun file => file = "/saves/nova.ns"
    xmlParseFile := fun file => if file = "/saves/nova.ns" then some novaDoc else none
    player_load := fun _ => { name := "Em 1" }
    gui_pick := "default"
    APPNAME := "NAEV"
    naev_version := "0.5.0" }


/-! ## Lemmas on the C library model -/


theorem strcmpChars_eq_zero (a b : List Char) : strcmpChars a b = 0 ↔ a = b := by
  induction a generalizing b with
  | nil => cases b <;> simp [strcmpChars]
  | cons x xs ih =>
    cases b with
    | nil => simp [strcmpChars]
    | cons y ys =>
      by_cases hxy : x = y
      · simp [strcmpChars, hxy, ih]
      · have hne : x.toNat ≠ y.toNat := fun h => hxy (Char.ext (UInt32.ext (by simpa [Char.toNat] using h)))
        simp only [strcmpChars, hxy, if_false, List.cons.injEq, false_and, iff_false]
        omega

theorem strcmp_eq_zero (a b : String) : strcmp a b = 0 ↔ a = b := by
  unfold strcmp
  rw [strcmpChars_eq_zero]
  constructor
  · intro h; exact String.ext h
  · intro h; rw [h]

theorem memmove_take {α : Type} (files : List α) (n i : Nat) (hi : i < n) (hn : n ≤ files.length) :
    (memmove files i (i + 1) (n - i - 1)).take (n - 1) = files.take i ++ (files.take n).drop (i + 1) := by
  unfold memmove
  have h1 : (files.take i).length = i := by simp; omega
  rw [List.take_append_eq_append_take, List.take_append_eq_append_take]
  simp only [h1, List.length_take, List.length_drop]
  have h2 : n - 1 - i - min (n - i - 1) (files.length - (i + 1)) = 0 := by omega
  have h3 : min (n - 1) i = i := by omega
  have h4 : min (n - 1 - i) (n - i - 1) = n - (i + 1) := by omega
  simp only [h2, List.take_take, h3, h4, List.take_zero, List.append_nil, List.drop_take]

theorem load_refresh_filter_take (files : List String) (n i : Nat)
    (hi : i ≤ n) (hn : n ≤ files.length) :
    (load_refresh_filter files n i).1.take (load_refresh_filter files n i).2 =
      files.take i ++ ((files.take n).drop i).filter (fun f => !load_refresh_noExt f) := by
  generalize h : n - i = k
  induction k using Nat.strong_induction_on generalizing files n i with
  | _ k ih =>
    subst h
    rw [load_refresh_filter]
    by_cases hlt : i < n
    · have hget : (files.take n).drop i = files.getD i "" :: (files.take n).drop (i + 1) := by
        have hl : i < (files.take n).length := by simp; omega
        rw [List.drop_eq_getElem_cons hl]
        simp [List.getD_eq_getElem?_getD, List.getElem?_eq_getElem (show i < files.length by omega)]
      have htk : files.take (i + 1) = files.take i ++ [files.getD i ""] := by
        rw [List.take_succ, List.getD_eq_getElem?_getD,
          List.getElem?_eq_getElem (show i < files.length by omega)]
        rfl
      generalize files.getD i "" = x at hget htk
      simp only [hlt, if_true]
      by_cases hx : load_refresh_noExt x = true
      · simp only [hx, if_true]
        have hlen : (memmove files i (i + 1) (n - i - 1)).length = files.length := by
          unfold memmove; simp; omega
        rw [ih (n - 1 - i) (by omega) _ (n - 1) i (by omega) (by omega) rfl]
        have hm := memmove_take files n i hlt hn
        have ha : (files.take i).length = i := by simp; omega
        have e1 : (memmove files i (i + 1) (n - i - 1)).take i = files.take i := by
          have := congrArg (List.take i) hm
          rw [List.take_take, List.take_append_eq_append_take, ha] at this
          simpa [show min i (n - 1) = i by omega, List.take_take] using this
        have e2 : ((memmove files i (i + 1) (n - i - 1)).take (n - 1)).drop i
            = (files.take n).drop (i + 1) := by
          rw [hm, List.drop_append_eq_append_drop, ha]
          simp [List.drop_eq_nil_of_le, ha]
        rw [e1, e2, hget, List.filter_cons]
        simp [hx]
      · simp only [Bool.not_eq_true] at hx
        simp only [hx, Bool.false_eq_true, if_false]
        rw [ih (n - (i + 1)) (by omega) _ n (i + 1) (by omega) hn rfl, hget, htk,
          List.filter_cons]
        simp [hx]
    · have : i = n := by omega
      subst this
      have : List.drop i (List.take i files) = [] := by
        apply List.drop_eq_nil_of_le; simp
      simp [this]

theorem load_refresh_noExt_false (file : String) :
    load_refresh_noExt file = false ↔ 5 ≤ strlen file ∧ hasSaveExt file := by
  unfold load_refresh_noExt hasSaveExt
  simp only [Bool.or_eq_false_iff, decide_eq_false_iff_not, not_lt, bne_eq_false_iff_eq,
    beq_iff_eq]
  constructor
  · rintro ⟨h5, hs⟩
    refine ⟨h5, ?_⟩
    have := (strcmp_eq_zero _ _).1 (by simpa using hs)
    have hd : file.data.drop (strlen file - 3) = ".ns".data := by
      have := congrArg String.data this
      simpa [strFrom] using this
    have hsuf := List.drop_suffix (strlen file - 3) file.data
    rw [hd] at hsuf
    exact hsuf
  · rintro ⟨h5, hs⟩
    refine ⟨h5, ?_⟩
    obtain ⟨t, ht⟩ := hs
    have hlen : t.length + 3 = file.data.length := by
      have := congrArg List.length ht
      simpa using this
    have hd : file.data.drop (strlen file - 3) = ".ns".data := by
      unfold strlen
      rw [← ht, List.drop_append_eq_append_drop]
      have h1 : (t ++ ".ns".data).length - 3 = t.length := by simp
      have h2 : List.drop ((t ++ ".ns".data).length - 3) t = [] := by
        apply List.drop_eq_nil_of_le; omega
      rw [h2, h1]
      simp
    have : strFrom file (strlen file - 3) = ".ns" := by
      apply String.ext; simpa [strFrom] using hd
    rw [this]
    decide

theorem load_refresh_candidates_eq (files : List String) :
    load_refresh_candidates files = files.filter (fun f => !load_refresh_noExt f) := by
  unfold load_refresh_candidates
  have := load_refresh_filter_take files files.length 0 (Nat.zero_le _) (Nat.le_refl _)
  simpa using this



/-! ## Lemmas on `load_load` and the parse loop -/

theorem xml_doWhile_inv {σ : Type} (body : Option xmlNode → σ → σ) (P : σ → Prop)
    (l : List xmlNode) (s : σ) (h0 : P s) (hnull : ∀ t, P t → P (body none t))
    (hstep : ∀ x ∈ l, ∀ t, P t → P (body (some x) t)) : P (xml_doWhile body l s) := by
  unfold xml_doWhile
  cases l with
  | nil => exact hnull s h0
  | cons n rest =>
    simp only
    generalize n :: rest = l at hstep
    induction l generalizing s with
    | nil => exact h0
    | cons x xs ih =>
      rw [List.foldl_cons]
      apply ih
      · exact hstep x (List.mem_cons_self _ _) s h0
      · intro y hy t ht
        exact hstep y (List.mem_cons_of_mem _ hy) t ht

theorem load_load_version_path (node : Option xmlNode) (save : nsave_t) :
    (load_load_version node save).path = save.path := by
  unfold load_load_version
  split
  · rfl
  · split <;> rfl

theorem load_load_player_path (env : Env) (parent : xmlNode) (node : Option xmlNode)
    (save : nsave_t) : (load_load_player env parent node save).path = save.path := by
  unfold load_load_player
  repeat (first | rfl | split)

theorem load_load_section_path (env : Env) (parent : Option xmlNode) (save : nsave_t) :
    (load_load_section env parent save).path = save.path := by
  unfold load_load_section
  split
  · rfl
  · split
    · rfl
    · split
      · refine xml_doWhile_inv _ (fun t : nsave_t => t.path = save.path) _ _ rfl ?_ ?_
        · intro t ht; rw [load_load_version_path]; exact ht
        · intro x _ t ht; rw [load_load_version_path]; exact ht
      · split
        · refine xml_doWhile_inv _ (fun t : nsave_t => t.path = save.path) _ _ rfl ?_ ?_
          · intro t ht; rw [load_load_player_path]; exact ht
          · intro x _ t ht; rw [load_load_player_path]; exact ht
        · rfl

theorem load_load_cases (env : Env) (z : nsave_t) (path : String) :
    ((load_load env z path).1 = 0 ∧ (load_load env z path).2.path = some path) ∨
      load_load env z path = (-1, nsave_zero) := by
  cases hp : env.xmlParseFile path with
  | none => right; simp [load_load, hp]
  | some doc =>
    cases hc : doc.children with
    | nil => right; simp [load_load, hp, hc]
    | cons root rest =>
      left
      simp only [load_load, hp, hc, true_and]
      refine xml_doWhile_inv _ (fun t : nsave_t => t.path = some path) _ _ rfl ?_ ?_
      · intro t ht; rw [load_load_section_path]; exact ht
      · intro x _ t ht; rw [load_load_section_path]; exact ht

theorem load_refresh_record_of_failed (env : Env) (file : String)
    (h : load_refresh_ok env file = false) : load_refresh_record env file = nsave_zero := by
  unfold load_refresh_ok at h
  unfold load_refresh_record
  rcases load_load_cases env env.array_uninit (load_refresh_path env file) with h0 | h1
  · simp [h0.1] at h
  · rw [h1]

theorem load_refresh_lastFailed_cons (env : Env) (file next : String) (rest : List String) :
    load_refresh_lastFailed env (file :: next :: rest)
      = load_refresh_lastFailed env (next :: rest) := by
  unfold load_refresh_lastFailed
  rw [List.getLast?_cons_cons]

theorem load_refresh_parse_eq (env : Env) (cands : List String) :
    ∀ (ok : Int) (saves : List nsave_t),
      load_refresh_parse env cands ok saves =
        if cands = [] then saves
        else (if ok = 0 then saves else saves.dropLast)
          ++ (cands.filter (load_refresh_ok env)).map (load_refresh_record env)
          ++ (if load_refresh_lastFailed env cands then [nsave_zero] else []) := by
  induction cands with
  | nil => intro ok saves; simp [load_refresh_parse]
  | cons file rest ih =>
    intro ok saves
    have hbase : (if ok = 0 then saves ++ [env.array_uninit] else saves).dropLast
        = if ok = 0 then saves else saves.dropLast := by
      split <;> simp
    have hr : ∀ z, load_load env z (load_refresh_path env file)
        = load_load env env.array_uninit (load_refresh_path env file) := fun _ => rfl
    simp only [load_refresh_parse, hr, hbase, reduceCtorEq, if_false]
    rw [ih]
    have hok : ((load_load env env.array_uninit (load_refresh_path env file)).1 = 0)
        ↔ load_refresh_ok env file = true := by
      simp [load_refresh_ok]
    cases rest with
    | nil =>
      cases hf : load_refresh_ok env file with
      | true =>
        simp [load_refresh_lastFailed, hf, load_refresh_record]
      | false =>
        have := load_refresh_record_of_failed env file hf
        simp [load_refresh_lastFailed, hf]
        exact this
    | cons next rest =>
      rw [load_refresh_lastFailed_cons]
      cases hf : load_refresh_ok env file with
      | true =>
        have h0 := hok.2 hf
        simp [h0, hf, load_refresh_record, List.filter_cons]
      | false =>
        have h0 : ¬ (load_load env env.array_uninit (load_refresh_path env file)).1 = 0 := by
          intro h; rw [hok.1 h] at hf; exact Bool.noConfusion hf
        simp [h0, hf, List.filter_cons]



/-! ## Lemmas on the fields written by `load_load` -/

theorem load_load_section_cases (env : Env) (x : xmlNode) (t : nsave_t) :
    load_load_section env (some x) t = t
      ∨ (xml_isNode (some x) "version" = true
          ∧ load_load_section env (some x) t = xml_doWhile load_load_version x.children t)
      ∨ (xml_isNode (some x) "version" = false ∧ xml_isNode (some x) "player" = true
          ∧ load_load_section env (some x) t
            = xml_doWhile (load_load_player env x) x.children
                { t with name := xmlr_attr x "name" }) := by
  unfold load_load_section
  by_cases h1 : xml_onlyNodes (some x) = true
  · left; simp [h1]
  · by_cases h2 : xml_isNode (some x) "version" = true
    · right; left; simp [h1, h2]
    · by_cases h3 : xml_isNode (some x) "player" = true
      · right; right; simp [h1, h2, h3]
      · left; simp [h1, h2, h3]

theorem load_load_version_cases (c : xmlNode) (t : nsave_t) :
    (xml_isNode (some c) "naev" = true
        ∧ load_load_version (some c) t = { t with version := xml_get c })
      ∨ (xml_isNode (some c) "data" = true
        ∧ load_load_version (some c) t = { t with data := xml_get c })
      ∨ load_load_version (some c) t = t := by
  unfold load_load_version xmlr_strd
  by_cases h1 : xml_isNode (some c) "naev" = true
  · left; simp [h1]
  · by_cases h2 : xml_isNode (some c) "data" = true
    · right; left; simp [h1, h2]
    · right; right; simp [h1, h2]

theorem load_load_player_cases (env : Env) (p c : xmlNode) (t : nsave_t) :
    (xml_isNode (some c) "location" = true
        ∧ load_load_player env p (some c) t = { t with planet := xml_get c })
      ∨ (xml_isNode (some c) "credits" = true
        ∧ ∃ v, load_load_player env p (some c) t = { t with credits := v })
      ∨ (xml_isNode (some c) "time" = true
        ∧ ∃ v, load_load_player env p (some c) t = { t with date := v })
      ∨ (xml_isNode (some c) "ship" = true
        ∧ load_load_player env p (some c) t
          = { t with shipname := xmlr_attr p "name", shipmodel := xmlr_attr p "model" })
      ∨ load_load_player env p (some c) t = t := by
  unfold load_load_player xmlr_strd xmlr_ulong
  by_cases h0 : xml_onlyNodes (some c) = true
  · simp [h0]
  · by_cases h1 : xml_isNode (some c) "location" = true
    · left; simp [h0, h1]
    · by_cases h2 : xml_isNode (some c) "credits" = true
      · right; left; simp [h0, h1, h2]
      · by_cases h3 : xml_isNode (some c) "time" = true
        · right; right; left; simp [h0, h1, h2, h3]
        · by_cases h4 : xml_isNode (some c) "ship" = true
          · right; right; right; left; simp [h0, h1, h2, h3, h4]
          · right; right; right; right; simp [h0, h1, h2, h3, h4]

/-- A property of the record that every step on a `version` child and every
step on a `player` child preserves, and that the assignment of `name`
preserves, holds after `load_load_section`. -/
theorem load_load_section_inv (env : Env) (x : xmlNode) (P : nsave_t → Prop) (t : nsave_t)
    (ht : P t)
    (hv : xml_isNode (some x) "version" = true →
      ∀ c ∈ x.children, ∀ s, P s → P (load_load_version (some c) s))
    (hn : xml_isNode (some x) "player" = true → P { t with name := xmlr_attr x "name" })
    (hp : xml_isNode (some x) "player" = true →
      ∀ c ∈ x.children, ∀ s, P s → P (load_load_player env x (some c) s)) :
    P (load_load_section env (some x) t) := by
  rcases load_load_section_cases env x t with h | ⟨h1, h⟩ | ⟨_, h2, h⟩
  · rw [h]; exact ht
  · rw [h]
    exact xml_doWhile_inv _ P _ _ ht (fun s hs => hs) (hv h1)
  · rw [h]
    exact xml_doWhile_inv _ P _ _ (hn h2) (fun s hs => hs) (hp h2)



/-! ## The save index: `load_refresh` -/

theorem load_refresh_eq (env : Env) (listing : List String) (old : Option (List nsave_t)) :
    load_refresh env (some listing) old
      = ((load_refresh_candidates listing).filter (load_refresh_ok env)).map
          (load_refresh_record env)
        ++ (if load_refresh_lastFailed env (load_refresh_candidates listing) then
              [nsave_zero] else []) := by
  simp only [load_refresh]
  rw [load_refresh_parse_eq]
  by_cases hc : load_refresh_candidates listing = []
  · simp [hc, load_refresh_lastFailed]
  · simp [hc]

theorem load_refresh_mem_candidates (listing : List String) (file : String) :
    file ∈ load_refresh_candidates listing
      ↔ file ∈ listing ∧ 5 ≤ strlen file ∧ hasSaveExt file := by
  rw [load_refresh_candidates_eq, List.mem_filter]
  have := load_refresh_noExt_false file
  constructor
  · rintro ⟨hm, hk⟩
    exact ⟨hm, this.1 (by simpa using hk)⟩
  · rintro ⟨hm, hk⟩
    exact ⟨hm, by simpa using this.2 hk⟩

theorem load_refresh_record_path (env : Env) (file : String)
    (hok : load_refresh_ok env file = true) :
    (load_refresh_record env file).path = some (load_refresh_path env file) := by
  rcases load_load_cases env env.array_uninit (load_refresh_path env file) with h0 | h1
  · exact h0.2
  · simp [load_refresh_ok, h1] at hok

theorem load_refresh_length (env : Env) (listing : List String) (old : Option (List nsave_t)) :
    (load_refresh env (some listing) old).length
      = ((load_refresh_candidates listing).filter (load_refresh_ok env)).length
        + (if load_refresh_lastFailed env (load_refresh_candidates listing) then 1 else 0) := by
  rw [load_refresh_eq]
  split <;> simp

/-- C10: the index after `load_refresh` consists of the records of the
candidates whose header parse succeeded, in listing order, followed by one
extra record with every field null or zero (path included) exactly when the
last candidate failed to parse; so its size is the number of successful
candidates plus one in that case, and it is empty for an empty candidate
list. -/
theorem load_refresh_index_shape (env : Env) (listing : List String)
    (old : Option (List nsave_t)) :
    load_refresh env (some listing) old
        = ((load_refresh_candidates listing).filter (load_refresh_ok env)).map
            (load_refresh_record env)
          ++ (if load_refresh_lastFailed env (load_refresh_candidates listing) then
                [{ name := none, path := none, version := none, data := none,
                   planet := none, date := 0, credits := 0, shipname := none,
                   shipmodel := none }]
              else [])
      ∧ (load_refresh env (some listing) old).length
        = ((load_refresh_candidates listing).filter (load_refresh_ok env)).length
          + (if load_refresh_lastFailed env (load_refresh_candidates listing) then 1 else 0)
      ∧ (load_refresh_candidates listing = [] → load_refresh env (some listing) old = [])
      ∧ (∀ file ∈ (load_refresh_candidates listing).filter (load_refresh_ok env),
          (load_refresh_record env file).path = some (load_refresh_path env file)) := by
  have key := load_refresh_eq env listing old
  refine ⟨key, load_refresh_length env listing old, ?_, ?_⟩
  · intro hc
    rw [key, hc]
    simp [load_refresh_lastFailed]
  · intro file hf
    exact load_refresh_record_path env file (List.mem_filter.1 hf).2

/-- C4: on the listing `nova.ns`, `beta.ns`, where only `nova.ns` parses, the
index holds two records although one candidate parsed: the failed last
candidate leaves a record with every field null or zero. -/
theorem load_refresh_trailing_slot :
    (["nova.ns", "beta.ns"].filter (load_refresh_ok scenarioEnv)) = ["nova.ns"]
      ∧ (load_refresh scenarioEnv (some ["nova.ns", "beta.ns"]) none).length = 2
      ∧ (load_refresh scenarioEnv (some ["nova.ns", "beta.ns"]) none).getLast? = some nsave_zero := by
  simp only [load_refresh, load_refresh_candidates_eq]
  decide



theorem load_refresh_path_inj (env : Env) (f g : String)
    (hf : strlen (env.nfile_basePath ++ "saves/" ++ f) < env.PATH_MAX)
    (hg : strlen (env.nfile_basePath ++ "saves/" ++ g) < env.PATH_MAX)
    (h : load_refresh_path env f = load_refresh_path env g) : f = g := by
  unfold load_refresh_path at h
  unfold strlen at hf hg
  have h1 := congrArg String.data h
  simp only at h1
  rw [List.take_of_length_le (by omega), List.take_of_length_le (by omega)] at h1
  have h2 : (env.nfile_basePath ++ "saves/").data ++ f.data
      = (env.nfile_basePath ++ "saves/").data ++ g.data := by
    simpa [String.data_append] using h1
  exact String.ext (List.append_cancel_left h2)

/-- C5 (as amended): a file name of the listing remains a save candidate
after the filter loop of `load_refresh` exactly when it has at least 5
characters and ends in `.ns`. -/
theorem load_refresh_candidates_iff (listing : List String) (file : String) :
    file ∈ load_refresh_candidates listing
      ↔ file ∈ listing ∧ 5 ≤ strlen file ∧ hasSaveExt file := by
  exact load_refresh_mem_candidates listing file

/-- C5 (counterexample): the file name `a.ns` ends in `.ns` and is not kept
as a save candidate. -/
theorem load_refresh_drops_short_name :
    ¬ ("a.ns" ∈ load_refresh_candidates ["a.ns"] ↔ hasSaveExt "a.ns") := by
  rw [load_refresh_candidates_eq]
  decide

/-- C6: the index after `load_refresh` has at most as many records as the
listing has file names ending in `.ns`; the filter loop keeps exactly the
entries that pass the test, each once and in order; every record that has a
path got it from a listing entry ending in `.ns`; and, when no path of the
listing is cut by the buffer, no record has the path of an entry that does
not end in `.ns`. -/
theorem load_refresh_only_save_files (env : Env) (listing : List String)
    (old : Option (List nsave_t)) :
    (load_refresh env (some listing) old).length
        ≤ (listing.filter (fun f => decide (hasSaveExt f))).length
      ∧ load_refresh_candidates listing = listing.filter (fun f => !load_refresh_noExt f)
      ∧ (∀ r ∈ load_refresh env (some listing) old, ∀ p, r.path = some p →
          ∃ f ∈ listing, hasSaveExt f ∧ p = load_refresh_path env f)
      ∧ ((∀ f ∈ listing, strlen (env.nfile_basePath ++ "saves/" ++ f) < env.PATH_MAX) →
          ∀ f ∈ listing, ¬ hasSaveExt f →
            ∀ r ∈ load_refresh env (some listing) old,
              r.path ≠ some (load_refresh_path env f)) := by
  have hshape := load_refresh_eq env listing old
  have hpos : ∀ r ∈ load_refresh env (some listing) old, ∀ p, r.path = some p →
      ∃ f ∈ listing, hasSaveExt f ∧ p = load_refresh_path env f := by
    intro r hr p hp
    rw [hshape, List.mem_append] at hr
    rcases hr with hr | hr
    · obtain ⟨f, hf, rfl⟩ := List.mem_map.1 hr
      obtain ⟨hc, hok⟩ := List.mem_filter.1 hf
      obtain ⟨hl, _, hext⟩ := (load_refresh_mem_candidates listing f).1 hc
      refine ⟨f, hl, hext, ?_⟩
      rw [load_refresh_record_path env f hok] at hp
      exact (Option.some.inj hp).symm
    · split at hr
      · rw [List.mem_singleton] at hr
        rw [hr] at hp
        exact Option.noConfusion hp
      · exact absurd hr (List.not_mem_nil _)
  refine ⟨?_, load_refresh_candidates_eq listing, hpos, ?_⟩
  · have h1 := load_refresh_length env listing old
    have h2 : ((load_refresh_candidates listing).filter (load_refresh_ok env)).length
          + (if load_refresh_lastFailed env (load_refresh_candidates listing) then 1 else 0)
        ≤ (load_refresh_candidates listing).length := by
      generalize load_refresh_candidates listing = cands
      induction cands with
      | nil => simp [load_refresh_lastFailed]
      | cons f rest ih =>
        cases rest with
        | nil =>
          cases hf : load_refresh_ok env f <;> simp [load_refresh_lastFailed, hf, List.filter_cons]
        | cons g rest =>
          rw [load_refresh_lastFailed_cons]
          have := List.length_filter_le (load_refresh_ok env) (g :: rest)
          cases hf : load_refresh_ok env f
          · rw [List.filter_cons_of_neg (by simp [hf])]
            simp only [List.length_cons] at ih ⊢
            omega
          · rw [List.filter_cons_of_pos (by simp [hf])]
            simp only [List.length_cons] at ih ⊢
            omega
    have h3 : (load_refresh_candidates listing).length
        ≤ (listing.filter (fun f => decide (hasSaveExt f))).length := by
      rw [load_refresh_candidates_eq]
      apply List.Sublist.length_le
      apply List.monotone_filter_right
      intro f hf
      have := (load_refresh_noExt_false f).1 (by simpa using hf)
      simpa using this.2
    omega
  · intro hcut f hf hext r hr hp
    obtain ⟨g, hg, hgext, hpath⟩ := hpos r hr _ hp
    have := load_refresh_path_inj env f g (hcut f hf) (hcut g hg) hpath
    exact hext (this ▸ hgext)



/-- C6 (witness): in the directory of `scenarioEnv`, listed as `c.txt`,
`nova.ns`, `x.ns`, `beta.ns`, the index has at most 3 records and no record
has the path of `c.txt`. -/
theorem load_refresh_only_save_files_witness :
    (load_refresh scenarioEnv (some ["c.txt", "nova.ns", "x.ns", "beta.ns"]) none).length ≤ 3
      ∧ ∀ r ∈ load_refresh scenarioEnv (some ["c.txt", "nova.ns", "x.ns", "beta.ns"]) none,
          r.path ≠ some "/saves/c.txt" :=
  have h := load_refresh_only_save_files scenarioEnv ["c.txt", "nova.ns", "x.ns", "beta.ns"] none
  ⟨h.1, h.2.2.2 (by decide) "c.txt" (by decide) (by decide)⟩

/-- C7 (as amended): whatever the listing order, the directory `a.ns`,
`b.ns`, `c.txt` gives an empty index, since no name has 5 characters and the
suffix `.ns`; and the directory `nova.ns` (parses, name `Nova`, credits 500),
`beta.ns` (fails to parse), `c.txt`, listed with `beta.ns` before `nova.ns`,
gives an index of exactly one record, with name `Nova` and credits 500. -/
theorem load_refresh_scenario (env : Env) (old : Option (List nsave_t))
    (listing : List String)
    (hok : load_refresh_ok env "nova.ns" = true)
    (hname : (load_refresh_record env "nova.ns").name = some "Nova")
    (hcred : (load_refresh_record env "nova.ns").credits = 500)
    (hbad : load_refresh_ok env "beta.ns" = false) :
    (listing.Perm ["a.ns", "b.ns", "c.txt"] → load_refresh env (some listing) old = [])
      ∧ (listing.Perm ["nova.ns", "beta.ns", "c.txt"] →
          listing.indexOf "beta.ns" < listing.indexOf "nova.ns" →
          ∃ r, load_refresh env (some listing) old = [r]
            ∧ r.name = some "Nova" ∧ r.credits = 500) := by
  constructor
  · intro hperm
    have hc : load_refresh_candidates listing = [] := by
      rw [load_refresh_candidates_eq, List.filter_eq_nil_iff]
      intro f hf
      have hm : f ∈ ["a.ns", "b.ns", "c.txt"] := hperm.subset hf
      simp only [List.mem_cons, List.mem_singleton, List.not_mem_nil, or_false] at hm
      rcases hm with rfl | rfl | rfl <;> decide
    simp [load_refresh, hc, load_refresh_parse]
  · intro hperm hidx
    have hlen := hperm.length_eq
    have hnd : listing.Nodup := hperm.nodup_iff.2 (by decide)
    have hsub : ∀ f ∈ listing, f = "nova.ns" ∨ f = "beta.ns" ∨ f = "c.txt" := by
      intro f hf
      simpa using hperm.subset hf
    have hk1 : load_refresh_noExt "nova.ns" = false := by decide
    have hk2 : load_refresh_noExt "beta.ns" = false := by decide
    have hk3 : load_refresh_noExt "c.txt" = true := by decide
    refine ⟨load_refresh_record env "nova.ns", ?_, hname, hcred⟩
    match listing, hlen, hnd, hsub, hidx with
    | [x, y, z], _, hnd, hsub, hidx =>
      have hx := hsub x (by simp)
      have hy := hsub y (by simp)
      have hz := hsub z (by simp)
      rw [load_refresh_eq, load_refresh_candidates_eq]
      rcases hx with rfl | rfl | rfl <;> rcases hy with rfl | rfl | rfl <;>
        rcases hz with rfl | rfl | rfl <;>
        first
        | (exfalso; revert hnd; decide)
        | (exfalso; revert hidx; decide)
        | simp [List.filter_cons, hk1, hk2, hk3, hok, hbad, load_refresh_lastFailed]

/-- C7 (witness): the amended scenario in the directory of `scenarioEnv`,
listed as `beta.ns`, `nova.ns`, `c.txt`. -/
theorem load_refresh_scenario_witness :
    ∃ r, load_refresh scenarioEnv (some ["beta.ns", "nova.ns", "c.txt"]) none = [r]
      ∧ r.name = some "Nova" ∧ r.credits = 500 :=
  (load_refresh_scenario scenarioEnv none ["beta.ns", "nova.ns", "c.txt"]
    (by decide) (by decide) (by decide) (by decide)).2 (by decide) (by decide)

/-- C7 (counterexample): in the directory of `scenarioEnv`, where `a.ns`
parses to the player `Nova` with 500 credits and `b.ns` fails to parse, the
index of the listing `a.ns`, `b.ns`, `c.txt` is empty, not a single record. -/
theorem load_refresh_scenario_empty :
    load_refresh_ok scenarioEnv "a.ns" = true
      ∧ (load_refresh_record scenarioEnv "a.ns").name = some "Nova"
      ∧ (load_refresh_record scenarioEnv "a.ns").credits = 500
      ∧ load_refresh_ok scenarioEnv "b.ns" = false
      ∧ ¬ ∃ r, load_refresh scenarioEnv (some ["a.ns", "b.ns", "c.txt"]) none = [r]
          ∧ r.name = some "Nova" ∧ r.credits = 500 := by
  refine ⟨by decide, by decide, by decide, by decide, ?_⟩
  have h : load_refresh scenarioEnv (some ["a.ns", "b.ns", "c.txt"]) none = [] := by
    simp only [load_refresh, load_refresh_candidates_eq]
    decide
  rw [h]
  rintro ⟨r, hr, _⟩
  exact List.noConfusion hr



/-! ## The header parse: `load_load` -/

theorem load_load_eq (env : Env) (z : nsave_t) (path : String) (doc : xmlDoc)
    (root : xmlNode) (rest : List xmlNode)
    (hdoc : env.xmlParseFile path = some doc) (hroot : doc.children = root :: rest) :
    load_load env z path
      = (0, xml_doWhile (load_load_section env) root.children
              { nsave_zero with path := some path }) := by
  simp only [load_load, hdoc, hroot]

/-- A property that holds of the zeroed record with its path and is preserved
by every section step holds of the record written by `load_load`. -/
theorem load_load_inv (env : Env) (z : nsave_t) (path : String) (doc : xmlDoc)
    (root : xmlNode) (rest : List xmlNode)
    (hdoc : env.xmlParseFile path = some doc) (hroot : doc.children = root :: rest)
    (P : nsave_t → Prop) (h0 : P { nsave_zero with path := some path })
    (hstep : ∀ x ∈ root.children, ∀ t, P t → P (load_load_section env (some x) t)) :
    P (load_load env z path).2 := by
  rw [load_load_eq env z path doc root rest hdoc hroot]
  exact xml_doWhile_inv _ P _ _ h0 (fun t ht => ht) hstep

/-- What `load_load` does with absent parts of a document that parses and has
a root element: it returns 0 and sets `path`; a field whose element is under
no `version` or `player` section of the root, or for `name` whose attribute
is on no `player` section, keeps its default (null or zero); without `ship`
element inside `player` both `shipname` and `shipmodel` are null; and the
record of such a file is in the index whenever the file is a save candidate.
Nothing is said here of a `ship` element that is present. -/
theorem load_load_defaults (env : Env) (z : nsave_t) (path : String) (doc : xmlDoc)
    (root : xmlNode) (rest : List xmlNode)
    (hdoc : env.xmlParseFile path = some doc) (hroot : doc.children = root :: rest) :
    (load_load env z path).1 = 0
      ∧ (load_load env z path).2.path = some path
      ∧ (root.lacks "version" "naev" → (load_load env z path).2.version = none)
      ∧ (root.lacks "version" "data" → (load_load env z path).2.data = none)
      ∧ (root.lacksAttr "player" "name" → (load_load env z path).2.name = none)
      ∧ (root.lacks "player" "location" → (load_load env z path).2.planet = none)
      ∧ (root.lacks "player" "credits" → (load_load env z path).2.credits = 0)
      ∧ (root.lacks "player" "time" → (load_load env z path).2.date = 0)
      ∧ (root.lacks "player" "ship" →
          (load_load env z path).2.shipname = none
            ∧ (load_load env z path).2.shipmodel = none)
      ∧ (∀ (listing : List String) (file : String) (old : Option (List nsave_t)),
          file ∈ load_refresh_candidates listing → load_refresh_path env file = path →
            (load_load env z path).2 ∈ load_refresh env (some listing) old) := by
  have hret : (load_load env z path).1 = 0 := by
    rw [load_load_eq env z path doc root rest hdoc hroot]
  refine ⟨hret, ?_, ?_, ?_, ?_, ?_, ?_, ?_, ?_, ?_⟩
  · rcases load_load_cases env z path with h | h
    · exact h.2
    · rw [h] at hret; exact absurd hret (by decide)
  · intro hl
    refine load_load_inv env z path doc root rest hdoc hroot (fun t => t.version = none) rfl ?_
    intro x hx t ht
    refine load_load_section_inv env x (fun t : nsave_t => t.version = none) t ht ?_ (fun _ => ht) ?_
    · intro hv c hc s hs
      have hn := hl x hx hv c hc
      rcases load_load_version_cases c s with ⟨h1, _⟩ | ⟨_, h⟩ | h
      · rw [hn] at h1; exact Bool.noConfusion h1
      · rw [h]; exact hs
      · rw [h]; exact hs
    · intro _ c _ s hs
      rcases load_load_player_cases env x c s with ⟨_, h⟩ | ⟨_, v, h⟩ | ⟨_, v, h⟩ | ⟨_, h⟩ | h <;>
        (rw [h]; exact hs)
  · intro hl
    refine load_load_inv env z path doc root rest hdoc hroot (fun t => t.data = none) rfl ?_
    intro x hx t ht
    refine load_load_section_inv env x (fun t : nsave_t => t.data = none) t ht ?_ (fun _ => ht) ?_
    · intro hv c hc s hs
      have hn := hl x hx hv c hc
      rcases load_load_version_cases c s with ⟨_, h⟩ | ⟨h1, _⟩ | h
      · rw [h]; exact hs
      · rw [hn] at h1; exact Bool.noConfusion h1
      · rw [h]; exact hs
    · intro _ c _ s hs
      rcases load_load_player_cases env x c s with ⟨_, h⟩ | ⟨_, v, h⟩ | ⟨_, v, h⟩ | ⟨_, h⟩ | h <;>
        (rw [h]; exact hs)
  · intro hl
    refine load_load_inv env z path doc root rest hdoc hroot (fun t => t.name = none) rfl ?_
    intro x hx t ht
    refine load_load_section_inv env x (fun t : nsave_t => t.name = none) t ht ?_ (fun hp => hl x hx hp) ?_
    · intro _ c _ s hs
      rcases load_load_version_cases c s with ⟨_, h⟩ | ⟨_, h⟩ | h <;> (rw [h]; exact hs)
    · intro _ c _ s hs
      rcases load_load_player_cases env x c s with ⟨_, h⟩ | ⟨_, v, h⟩ | ⟨_, v, h⟩ | ⟨_, h⟩ | h <;>
        (rw [h]; exact hs)
  · intro hl
    refine load_load_inv env z path doc root rest hdoc hroot (fun t => t.planet = none) rfl ?_
    intro x hx t ht
    refine load_load_section_inv env x (fun t : nsave_t => t.planet = none) t ht ?_ (fun _ => ht) ?_
    · intro _ c _ s hs
      rcases load_load_version_cases c s with ⟨_, h⟩ | ⟨_, h⟩ | h <;> (rw [h]; exact hs)
    · intro hp c hc s hs
      have hn := hl x hx hp c hc
      rcases load_load_player_cases env x c s with ⟨h1, _⟩ | ⟨_, v, h⟩ | ⟨_, v, h⟩ | ⟨_, h⟩ | h
      · rw [hn] at h1; exact Bool.noConfusion h1
      all_goals (rw [h]; exact hs)
  · intro hl
    refine load_load_inv env z path doc root rest hdoc hroot (fun t => t.credits = 0) rfl ?_
    intro x hx t ht
    refine load_load_section_inv env x (fun t : nsave_t => t.credits = 0) t ht ?_ (fun _ => ht) ?_
    · intro _ c _ s hs
      rcases load_load_version_cases c s with ⟨_, h⟩ | ⟨_, h⟩ | h <;> (rw [h]; exact hs)
    · intro hp c hc s hs
      have hn := hl x hx hp c hc
      rcases load_load_player_cases env x c s with ⟨_, h⟩ | ⟨h1, _⟩ | ⟨_, v, h⟩ | ⟨_, h⟩ | h
      · rw [h]; exact hs
      · rw [hn] at h1; exact Bool.noConfusion h1
      all_goals (rw [h]; exact hs)
  · intro hl
    refine load_load_inv env z path doc root rest hdoc hroot (fun t => t.date = 0) rfl ?_
    intro x hx t ht
    refine load_load_section_inv env x (fun t : nsave_t => t.date = 0) t ht ?_ (fun _ => ht) ?_
    · intro _ c _ s hs
      rcases load_load_version_cases c s with ⟨_, h⟩ | ⟨_, h⟩ | h <;> (rw [h]; exact hs)
    · intro hp c hc s hs
      have hn := hl x hx hp c hc
      rcases load_load_player_cases env x c s with ⟨_, h⟩ | ⟨_, v, h⟩ | ⟨h1, _⟩ | ⟨_, h⟩ | h
      · rw [h]; exact hs
      · rw [h]; exact hs
      · rw [hn] at h1; exact Bool.noConfusion h1
      all_goals (rw [h]; exact hs)
  · intro hl
    refine load_load_inv env z path doc root rest hdoc hroot
      (fun t => t.shipname = none ∧ t.shipmodel = none) ⟨rfl, rfl⟩ ?_
    intro x hx t ht
    refine load_load_section_inv env x (fun t : nsave_t => t.shipname = none ∧ t.shipmodel = none) t ht ?_ (fun _ => ht) ?_
    · intro _ c _ s hs
      rcases load_load_version_cases c s with ⟨_, h⟩ | ⟨_, h⟩ | h <;> (rw [h]; exact hs)
    · intro hp c hc s hs
      have hn := hl x hx hp c hc
      rcases load_load_player_cases env x c s with ⟨_, h⟩ | ⟨_, v, h⟩ | ⟨_, v, h⟩ | ⟨h1, _⟩ | h
      · rw [h]; exact hs
      · rw [h]; exact hs
      · rw [h]; exact hs
      · rw [hn] at h1; exact Bool.noConfusion h1
      · rw [h]; exact hs
  · intro listing file old hc hpath
    rw [load_refresh_eq, List.mem_append]
    left
    refine List.mem_map.2 ⟨file, List.mem_filter.2 ⟨hc, ?_⟩, ?_⟩
    · simp only [load_refresh_ok, hpath]
      have : (load_load env env.array_uninit path).1 = 0 := hret
      simp [this]
    · simp only [load_refresh_record, hpath]
      rfl



/-- The save `bare.ns` of `scenarioEnv`, which has no `ship` element, parses,
has null ship fields and is in the index. -/
theorem load_load_defaults_witness :
    (load_load scenarioEnv nsave_zero "/saves/bare.ns").1 = 0
      ∧ (load_load scenarioEnv nsave_zero "/saves/bare.ns").2.path = some "/saves/bare.ns"
      ∧ (load_load scenarioEnv nsave_zero "/saves/bare.ns").2.version = none
      ∧ (load_load scenarioEnv nsave_zero "/saves/bare.ns").2.shipname = none
      ∧ (load_load scenarioEnv nsave_zero "/saves/bare.ns").2.shipmodel = none
      ∧ (load_load scenarioEnv nsave_zero "/saves/bare.ns").2
          ∈ load_refresh scenarioEnv (some ["bare.ns"]) none :=
  have h := load_load_defaults scenarioEnv nsave_zero "/saves/bare.ns" bareDoc bareRoot []
    rfl rfl
  ⟨h.1, h.2.1, h.2.2.1 (by decide), (h.2.2.2.2.2.2.2.2.1 (by decide)).1,
    (h.2.2.2.2.2.2.2.2.1 (by decide)).2,
    h.2.2.2.2.2.2.2.2.2 ["bare.ns"] "bare.ns" none
      (by rw [load_refresh_candidates_eq]; decide) (by decide)⟩

/-- C8: on the save `nova.ns` of `scenarioEnv`, whose `ship` element has
name `Falcon` and model `Llama` inside the player `Nova`, `load_load` sets
`name` to `Nova`, `shipname` to `Nova` (the name attribute of `player`) and
leaves `shipmodel` null. -/
theorem load_load_ship_reads_player :
    (∀ p ∈ novaRoot.children, xml_isNode (some p) "player" = true →
        xmlGetProp p "name" = some "Nova"
          ∧ ∀ c ∈ p.children, xml_isNode (some c) "ship" = true →
              xmlGetProp c "name" = some "Falcon" ∧ xmlGetProp c "model" = some "Llama")
      ∧ (load_load scenarioEnv nsave_zero "/saves/nova.ns").1 = 0
      ∧ (load_load scenarioEnv nsave_zero "/saves/nova.ns").2.name = some "Nova"
      ∧ (load_load scenarioEnv nsave_zero "/saves/nova.ns").2.shipname = some "Nova"
      ∧ (load_load scenarioEnv nsave_zero "/saves/nova.ns").2.shipmodel = none := by
  refine ⟨by decide, by decide, by decide, by decide, by decide⟩

/-- C9: on the save `llama.ns` of `llamaEnv`, whose `ship` element has no
`name` attribute, `load_load` returns 0 and sets `path`, but `shipname` is not
left null: it is `Nova`, the name attribute of `player`; and the record with
that ship name is in the index. -/
theorem load_load_absent_ship_name :
    (∀ p ∈ llamaRoot.children, xml_isNode (some p) "player" = true →
        ∀ c ∈ p.children, xml_isNode (some c) "ship" = true → xmlGetProp c "name" = none)
      ∧ (load_load llamaEnv nsave_zero "/saves/llama.ns").1 = 0
      ∧ (load_load llamaEnv nsave_zero "/saves/llama.ns").2.path = some "/saves/llama.ns"
      ∧ (load_load llamaEnv nsave_zero "/saves/llama.ns").2.shipname = some "Nova"
      ∧ (load_refresh llamaEnv (some ["llama.ns"]) none).map (fun r => r.shipname)
          = [some "Nova"] := by
  refine ⟨by decide, by decide, by decide, by decide, ?_⟩
  simp only [load_refresh, load_refresh_candidates_eq]
  decide

/-! ## The loader: `load_game` -/

/-- C1: when the file exists and parses to a document with a root element,
`load_game` returns 0; its teardown and load calls are, in this order and
each once, the five teardowns, then diffs, factions, player, variables,
missions, events, hooks, space, economy init, event sanity check, load
trigger, land at the location returned by the player step, GUI load and
cargo fix-up; the last teardown precedes the first load; and the whole
sequence of calls is the one listed. -/
theorem load_game_pipeline (env : GameEnv) (file : String) (doc : xmlDoc)
    (node : xmlNode) (rest : List xmlNode)
    (hex : env.nfile_fileExists file = true)
    (hdoc : env.xmlParseFile file = some doc)
    (hroot : doc.children = node :: rest) :
    (load_game env file).1 = 0
      ∧ (load_game env file).2.filter (fun c => c.isTeardown || c.isLoadStep)
        = [Call.player_cleanup, Call.diff_clear, Call.var_cleanup,
            Call.missions_cleanup, Call.events_cleanup,
            Call.diff_load node, Call.pfaction_load node, Call.player_load node,
            Call.var_load node, Call.missions_loadActive node,
            Call.events_loadActive node, Call.hook_load node, Call.space_sysLoad node,
            Call.economy_init, Call.event_checkSanity,
            Call.events_trigger "EVENT_TRIGGER_LOAD",
            Call.land (env.player_load node) 1,
            Call.gui_load env.gui_pick, Call.gui_setCargo]
      ∧ (load_game env file).2
        = [Call.nfile_fileExists file, Call.xmlParseFile file,
            Call.player_cleanup, Call.diff_clear, Call.var_cleanup,
            Call.missions_cleanup, Call.events_cleanup,
            Call.player_message ("\x1bgWelcome to " ++ env.APPNAME ++ "!"),
            Call.player_message ("\x1bg v" ++ env.naev_version),
            Call.diff_load node, Call.pfaction_load node, Call.player_load node,
            Call.var_load node, Call.missions_loadActive node,
            Call.events_loadActive node, Call.hook_load node, Call.space_sysLoad node,
            Call.economy_init, Call.event_checkSanity,
            Call.events_trigger "EVENT_TRIGGER_LOAD",
            Call.land (env.player_load node) 1,
            Call.gui_pick, Call.gui_load env.gui_pick, Call.gui_setCargo,
            Call.xmlFreeDoc, Call.xmlCleanupParser] := by
  simp only [load_game, hex, hdoc, hroot]
  refine ⟨rfl, rfl, rfl⟩

/-- C1 (witness): loading `/saves/nova.ns` in `scenarioGame` succeeds and
lands the player at `Em 1`. -/
theorem load_game_pipeline_witness :
    (load_game scenarioGame "/saves/nova.ns").1 = 0
      ∧ (load_game scenarioGame "/saves/nova.ns").2.filter
          (fun c => c.isTeardown || c.isLoadStep)
        = [Call.player_cleanup, Call.diff_clear, Call.var_cleanup,
            Call.missions_cleanup, Call.events_cleanup,
            Call.diff_load novaRoot, Call.pfaction_load novaRoot, Call.player_load novaRoot,
            Call.var_load novaRoot, Call.missions_loadActive novaRoot,
            Call.events_loadActive novaRoot, Call.hook_load novaRoot,
            Call.space_sysLoad novaRoot,
            Call.economy_init, Call.event_checkSanity,
            Call.events_trigger "EVENT_TRIGGER_LOAD",
            Call.land { name := "Em 1" } 1,
            Call.gui_load "default", Call.gui_setCargo] :=
  have h := load_game_pipeline scenarioGame "/saves/nova.ns" novaDoc novaRoot []
    (by decide) rfl rfl
  ⟨h.1, h.2.1⟩

/-- C2: when the file does not exist, or does not parse, or parses to a
document without root element, `load_game` returns -1 and makes no teardown
call, no load call and no other call that changes game state. -/
theorem load_game_failure (env : GameEnv) (file : String)
    (h : env.nfile_fileExists file = false ∨ env.xmlParseFile file = none
      ∨ ∃ doc, env.xmlParseFile file = some doc ∧ doc.children = []) :
    (load_game env file).1 = -1
      ∧ (load_game env file).1 ≠ 0
      ∧ ∀ c ∈ (load_game env file).2,
          c.isTeardown = false ∧ c.isLoadStep = false ∧ c.touchesGame = false := by
  have key : (load_game env file).1 = -1
      ∧ ∀ c ∈ (load_game env file).2,
          c.isTeardown = false ∧ c.isLoadStep = false ∧ c.touchesGame = false := by
    unfold load_game
    by_cases hex : env.nfile_fileExists file = true
    · rcases h with h | h | ⟨doc, hd, hc⟩
      · rw [h] at hex; exact Bool.noConfusion hex
      · simp [hex, h, Call.isTeardown, Call.isLoadStep, Call.touchesGame]
      · simp [hex, hd, hc, Call.isTeardown, Call.isLoadStep, Call.touchesGame]
    · simp [hex, Call.isTeardown, Call.isLoadStep, Call.touchesGame]
  refine ⟨key.1, ?_, key.2⟩
  rw [key.1]
  decide

/-- C2 (witness): loading the missing file `/saves/gone.ns` in `scenarioGame`
fails after the existence test and the alert only. -/
theorem load_game_failure_witness :
    (load_game scenarioGame "/saves/gone.ns").1 = -1
      ∧ ∀ c ∈ (load_game scenarioGame "/saves/gone.ns").2,
          c.isTeardown = false ∧ c.isLoadStep = false ∧ c.touchesGame = false :=
  have h := load_game_failure scenarioGame "/saves/gone.ns" (Or.inl (by decide))
  ⟨h.1, h.2.2⟩



/-! ## The load menu: `load_menu_delete` -/

theorem load_loadGameMenu_dup_get (saves : List nsave_t) :
    ∀ (names : List String), load_loadGameMenu_dup saves = some names →
      ∀ pos, pos < names.length →
        ∃ ns name, saves[pos]? = some ns ∧ names[pos]? = some name
          ∧ ns.name = some name := by
  induction saves with
  | nil =>
    intro names h pos hpos
    simp only [load_loadGameMenu_dup, Option.some.injEq] at h
    subst h
    exact absurd hpos (Nat.not_lt_zero _)
  | cons s rest ih =>
    intro names h pos hpos
    unfold load_loadGameMenu_dup at h
    cases hn : s.name with
    | none => simp [hn] at h
    | some name =>
      cases hr : load_loadGameMenu_dup rest with
      | none => simp [hn, hr] at h
      | some tail =>
        simp only [hn, hr, Option.some.injEq] at h
        subst h
        cases pos with
        | zero => exact ⟨s, name, by simp, by simp, hn⟩
        | succ k =>
          have hk : k < tail.length := by simpa using hpos
          obtain ⟨ns, nm, h1, h2, h3⟩ := ih tail hr k hk
          exact ⟨ns, nm, by simpa using h1, by simpa using h2, h3⟩

/-- C3 (as amended): in the menu built from a non-empty index, for every
selected row whose name is not the text `None`, `load_menu_delete` calls
`remove` exactly when the user accepts the confirmation; it then removes one
file, the one at the path of the record of the selected row, and rebuilds the
menu; when the user declines, nothing is removed and the menu is not rebuilt.
For a row whose name is the text `None` it returns at once: the user is not
asked and nothing is removed. -/
theorem load_menu_delete_confirmed (saves : List nsave_t) (names : List String)
    (pos : Nat) (yes : Bool) (wdw : Nat) (hne : saves ≠ [])
    (hnames : load_loadGameMenu_names saves = some names) (hpos : pos < names.length) :
    ∃ ns name, saves[pos]? = some ns ∧ names[pos]? = some name ∧ ns.name = some name
      ∧ (name = "None" →
          load_menu_delete yes saves { items := names, pos := pos } wdw = some [])
      ∧ (name ≠ "None" →
          ∃ calls, load_menu_delete yes saves { items := names, pos := pos } wdw = some calls
            ∧ MenuCall.asked calls = true
            ∧ (MenuCall.removed calls ≠ [] ↔ yes = true)
            ∧ (yes = true →
                MenuCall.removed calls = [ns.path]
                  ∧ calls.drop 1 = [MenuCall.remove ns.path, MenuCall.window_destroy wdw,
                      MenuCall.load_loadGameMenu])
            ∧ (yes = false →
                MenuCall.removed calls = [] ∧ MenuCall.load_loadGameMenu ∉ calls)) := by
  have hlen : saves.length > 0 := List.length_pos.2 hne
  have hdup : load_loadGameMenu_dup saves = some names := by
    simpa [load_loadGameMenu_names, hlen] using hnames
  obtain ⟨ns, name, hget, hname, hnsname⟩ := load_loadGameMenu_dup_get saves names hdup pos hpos
  refine ⟨ns, name, hget, hname, hnsname, ?_, ?_⟩
  · intro hN
    have hz : strcmp "None" "None" = 0 := by decide
    simp [load_menu_delete, toolkit_getList, hname, hN, hz]
  · intro hN
    have hb : ¬ strcmp name "None" = 0 := fun h => hN ((strcmp_eq_zero _ _).1 h)
    cases yes with
    | false =>
      refine ⟨[MenuCall.dialogue_YesNo "Permanently Delete?"
        ("Are you sure you want to permanently delete \x27" ++ name ++ "\x27?")], ?_, ?_⟩
      · simp [load_menu_delete, toolkit_getList, hname, hb]
      · simp [MenuCall.removed, MenuCall.asked]
    | true =>
      refine ⟨[MenuCall.dialogue_YesNo "Permanently Delete?"
        ("Are you sure you want to permanently delete \x27" ++ name ++ "\x27?"),
        MenuCall.remove ns.path, MenuCall.window_destroy wdw, MenuCall.load_loadGameMenu],
        ?_, ?_⟩
      · simp [load_menu_delete, toolkit_getList, toolkit_getListPos, hname, hb, hget]
      · simp [MenuCall.removed, MenuCall.asked]

/-- C3 (witness): with the single save `novaSave` in the index and its row
selected, an accepted Delete removes `/saves/nova.ns` and nothing else. -/
theorem load_menu_delete_confirmed_witness :
    ∃ calls, load_menu_delete true [novaSave] { items := ["Nova"], pos := 0 } 7 = some calls
      ∧ MenuCall.removed calls = [some "/saves/nova.ns"] :=
  have h := load_menu_delete_confirmed [novaSave] ["Nova"] 0 true 7 (by decide) (by decide)
    (by decide)
  h.elim fun ns h1 => h1.elim fun name h2 =>
    have hns : ns = novaSave := by
      have := h2.1
      simpa using this.symm
    have hname : name ≠ "None" := by
      have h3 := h2.2.1
      have : name = "Nova" := by simpa using h3.symm
      rw [this]; decide
    (h2.2.2.2.2 hname).elim fun calls h4 =>
      ⟨calls, h4.1, by rw [(h4.2.2.2.1 rfl).1, hns]; rfl⟩

/-- C3 (counterexample): the index holds the single save `noneSave`, whose
row reads `None`; with that row selected and a user who accepts, Delete
makes no call, so the file of the selected row is not removed. -/
theorem load_menu_delete_none_row :
    load_loadGameMenu_names [noneSave] = some ["None"]
      ∧ load_menu_delete true [noneSave] { items := ["None"], pos := 0 } 7 = some []
      ∧ ¬ ∃ calls,
          load_menu_delete true [noneSave] { items := ["None"], pos := 0 } 7 = some calls
            ∧ MenuCall.removed calls = [noneSave.path] := by
  have h : load_menu_delete true [noneSave] { items := ["None"], pos := 0 } 7 = some [] := by
    decide
  refine ⟨by decide, h, ?_⟩
  rintro ⟨calls, hc, hr⟩
  rw [h] at hc
  have : calls = [] := (Option.some.inj hc).symm
  rw [this] at hr
  exact List.noConfusion hr

end Naev
